import Mathlib

/-
  Verification of the client-side subscription synchronization engine
  (webui/react/src/services/stream/stream.ts).

  The engine is embedded shallowly: the private mutable fields of the
  `Stream` class become an explicit `StreamState` record, and each private
  method (`#processPending`, `#processSubscription`, `#sendSpec`,
  `#shouldSkip`, `#handleSubFinish`, the `onclose` handler of `#connect`)
  becomes a pure function from state to state.  Callback invocations
  (`onUpsert`, `onDelete`, `isLoaded`) and outbound websocket sends are
  recorded as an emitted `Event` trace.
-/

namespace DetStream

/-- A wire value carried in one field of a server message
(`StreamContent` in the source).  Strings, booleans, entity records
`{ id, seq, ... }` and serialized key lists all occur. -/
inductive StreamContent where
  | str (s : String)
  | boolv (b : Bool)
  | entity (eid : Int) (seq : Int)
  | keys (ks : List Int)
deriving DecidableEq, Repr

/-- JavaScript truthiness of a field value: the empty string and `false`
are falsy, every other modelled value is truthy. -/
def truthy : StreamContent → Bool
  | .str s => s ≠ ""
  | .boolv b => b
  | .entity _ _ => true
  | .keys _ => true

/-- `val.id` of an entity record; 0 for non-entity content (the source
would read `undefined` there, which is only reachable on malformed
messages). -/
def StreamContent.entityId : StreamContent → Int
  | .entity i _ => i
  | _ => 0

/-- `val.seq` of an entity record; 0 for non-entity content. -/
def StreamContent.entitySeq : StreamContent → Int
  | .entity _ s => s
  | _ => 0

/-- An inbound message: a JSON record, i.e. a finite list of named
fields in insertion order (`Record<string, StreamContent>`). -/
abbrev Msg := List (String × StreamContent)

/-- `msg['sync_id']` when that field is present and truthy, as tested by
`if (msg['sync_id'])`. -/
def msgSyncId (m : Msg) : Option StreamContent :=
  match List.lookup "sync_id" m with
  | some v => if truthy v then some v else none
  | none => none

/-- Truthiness of `msg['complete']`, as tested by `if (!msg['complete'])`. -/
def msgCompleteTruthy (m : Msg) : Bool :=
  match List.lookup "complete" m with
  | some v => truthy v
  | none => false

/-- Modelled from the spec: the per-group key cache (`KeyCache` from
`./keyCache`, not part of the sampled sources) tracks the known primary
keys, the highest observed sequence number, and the set of deleted keys;
it exposes `known()`, `maxSeq()`, `upsert(ids, seq)` and
`delete_msg(ids)`. -/
structure KeyCache where
  known : List Int
  maxseq : Int
  deleted : List Int
deriving DecidableEq, Repr

/-- `new KeyCache()`: an empty cache. -/
def KeyCache.init : KeyCache := ⟨[], 0, []⟩

/-- Modelled from the spec: record an upsert of `ids` at sequence `seq`
(extends the known-key set, advances the max sequence). -/
def KeyCache.upsert (c : KeyCache) (ids : List Int) (seq : Int) : KeyCache :=
  { known := c.known ++ ids.filter (fun i => !(c.known.contains i)),
    maxseq := max c.maxseq seq,
    deleted := c.deleted }

/-- Modelled from the spec: record a delete of `ids` (removes them from
the known set, adds them to the deleted set). -/
def KeyCache.delete_msg (c : KeyCache) (ids : List Int) : KeyCache :=
  { known := c.known.filter (fun i => !(ids.contains i)),
    maxseq := c.maxseq,
    deleted := c.deleted ++ ids.filter (fun i => !(c.deleted.contains i)) }

/-- Modelled from the spec: `decode_keys` (from `./keyCache`, not part of
the sampled sources) decodes the serialized deleted-key list; the wire
serialization is represented by the `keys` constructor carrying its
decoded value, and non-list content decodes to the empty list. -/
def decode_keys : StreamContent → List Int
  | .keys ks => ks
  | _ => []

/-- Modelled from the spec: a subscription spec (`StreamSpec`, whose
concrete classes are not part of the sampled sources) has a stable
entity-type-group identity (`id()`), value equality (`equals`) and a
wire form (`toWire()`), which we represent as a list of named integer
fields. -/
structure StreamSpec where
  sid : String
  wire : List (String × Int)
deriving DecidableEq, Repr

/-- Modelled from the spec: `equals` is value equality between specs. -/
def StreamSpec.equals (a b : StreamSpec) : Bool := decide (a = b)

/-- One entry of a subscription group: a spec plus an optional
caller-supplied label (`id`), used only to report loading. -/
structure Subscription where
  spec : StreamSpec
  id : Option String := none
deriving DecidableEq, Repr

/-- An active-subscription entry: a subscription paired with its key
cache (`SubscriptionWithCache`). -/
structure SubscriptionWithCache extends Subscription where
  keyCache : KeyCache
deriving DecidableEq, Repr

/-- `SubscriptionGroup`: a record from entity-type-group name to
subscription, as a key/value list in insertion order. -/
abbrev SubscriptionGroup := List (String × Subscription)

/-- The active subscription `#curSub`:
`Partial<Record<Streamable, SubscriptionWithCache>>`. -/
abbrev CurSub := List (String × SubscriptionWithCache)

/-- One `subscribe` record of the outbound payload: the spec's wire
fields plus the `since` cursor. -/
structure SubscribeEntry where
  wire : List (String × Int)
  since : Int
deriving DecidableEq, Repr

/-- The outbound payload built by `#sendSpec`. -/
structure Payload where
  sync_id : String
  known : List (String × List Int)
  subscribe : List (String × SubscribeEntry)
deriving DecidableEq, Repr

/-- Externally observable actions of the engine: callback invocations
and outbound sends. -/
inductive Event where
  | upsert (m : Msg)
  | delete (group : String) (ks : List Int)
  | loaded (labels : List String)
  | send (p : Payload)
deriving DecidableEq, Repr

/-- The fixed backoff table (`backoffs`), in seconds. -/
def backoffs : List Nat := [0, 1, 2, 4, 8, 10, 10, 10, 15]

/-- The private mutable fields of the `Stream` class. -/
structure StreamState where
  retries : Nat
  numSyncs : Nat
  closedByClient : Bool
  subs : List SubscriptionGroup
  curSub : Option CurSub
  syncSent : Option StreamContent
  syncStarted : Option StreamContent
  syncComplete : Option StreamContent
  pendingMsg : List Msg
deriving DecidableEq, Repr

/-- The state established by the constructor. -/
def initStream : StreamState :=
  { retries := 0, numSyncs := 0, closedByClient := false, subs := [],
    curSub := none, syncSent := none, syncStarted := none,
    syncComplete := none, pendingMsg := [] }

/-- JavaScript record assignment `r[k] = v`: overwrite in place if the
key exists, append otherwise. -/
def recSet {α : Type} (l : List (String × α)) (k : String) (v : α) :
    List (String × α) :=
  if l.any (fun kv => kv.1 == k) then
    l.map (fun kv => if kv.1 == k then (k, v) else kv)
  else l ++ [(k, v)]

/-- JavaScript record spread `{ ...old, ...nw }`: keys of `old` in
order with values overridden by `nw`, then the new keys of `nw`. -/
def recMerge (old nw : SubscriptionGroup) : SubscriptionGroup :=
  old.map (fun kv =>
    match List.lookup kv.1 nw with
    | some v => (kv.1, v)
    | none => kv)
  ++ nw.filter (fun kv => (List.lookup kv.1 old).isNone)

/-- Forget the key caches of an active subscription, viewing it as a
plain subscription group. -/
def curSubGroup (cs : CurSub) : SubscriptionGroup :=
  cs.map (fun kv => (kv.1, kv.2.toSubscription))

/-- `this.#curSub?.[k]?.keyCache` update: apply `f` to the key cache of
group `k` when the active subscription has that group, else no-op. -/
def updateCache (cur : Option CurSub) (k : String) (f : KeyCache → KeyCache) :
    Option CurSub :=
  match cur with
  | none => none
  | some cs =>
    some (cs.map (fun kv =>
      if kv.1 == k then (kv.1, { kv.2 with keyCache := f kv.2.keyCache }) else kv))

/-- JavaScript falsiness of an optional sync-identifier field:
`undefined` and falsy values count as absent. -/
def optFalsy (o : Option StreamContent) : Bool :=
  match o with
  | none => true
  | some v => !truthy v

/-- `#handleSubFinish`: the labels reported to `isLoaded` — each entry's
`id`, with empty/absent labels dropped
(`map(spec, (s) => s?.id || '').filter((i) => !!i)`). -/
def finishLabels (g : SubscriptionGroup) : List String :=
  (g.map (fun kv => kv.2.id.getD "")).filter (fun s => s ≠ "")

/-- `#handleSubFinish(this.#curSub!)`: labels of the active
subscription; lodash `map` of `undefined` yields `[]`. -/
def finishLabelsCur (cur : Option CurSub) : List String :=
  match cur with
  | none => []
  | some cs => finishLabels (curSubGroup cs)

/-- `#shouldSkip`: a queued group is skipped iff there is an active
subscription and every entry's spec is `equals`-equal to the active
spec of its group (a missing group makes the access chain `undefined`,
hence not skippable). -/
def shouldSkip (cur : Option CurSub) (g : SubscriptionGroup) : Bool :=
  match cur with
  | none => false
  | some cs =>
    g.all (fun kv =>
      match List.lookup kv.1 cs with
      | some e => e.spec.equals kv.2.spec
      | none => false)

/-- Does `p` occur at the front of the character list? -/
def startsWithList : List Char → List Char → Bool
  | [], _ => true
  | _ :: _, [] => false
  | p :: ps, c :: cs => p == c && startsWithList ps cs

/-- Does `pat` occur as a contiguous run anywhere in the list? -/
def hasInfixList (pat : List Char) : List Char → Bool
  | [] => pat.isEmpty
  | c :: rest => startsWithList pat (c :: rest) || hasInfixList pat rest

/-- JavaScript `s.includes(pat)`. -/
def strIncludes (s pat : String) : Bool := hasInfixList pat.toList s.toList

/-- Lodash `trimEnd(s, chars)`: remove from the end of `s` every
character that occurs in `chars` (a character set, not a suffix). -/
def trimEnd (s : String) (chars : String) : String :=
  String.mk ((s.toList.reverse.dropWhile (fun c => chars.toList.contains c)).reverse)

/-- Modelled from the spec: the type-name→group lookup table
(`StreamEntityMap` from the package index, not part of the sampled
sources); per the spec's routing example the field tag `trials` resolves
to the `trials` group, and unknown tags resolve to nothing. -/
def StreamEntityMap (k : String) : Option String :=
  if k = "trials" then some "trials" else none

/-- One field of a delta message, as handled by the `forEach` body of
`#processPending`: a `_deleted` field applies a delete to that group's
key cache and invokes `onDelete`; any other field applies an upsert via
`StreamEntityMap` and invokes `onUpsert` with the whole message. -/
def applyDeltaField (msg : Msg) (cur : Option CurSub) (kv : String × StreamContent) :
    Option CurSub × Event :=
  if strIncludes kv.1 "_deleted" then
    let sk := trimEnd kv.1 "_deleted"
    let dk := decode_keys kv.2
    (updateCache cur sk (fun c => c.delete_msg dk), Event.delete sk dk)
  else
    match StreamEntityMap kv.1 with
    | some gk =>
      (updateCache cur gk (fun c => c.upsert [kv.2.entityId] kv.2.entitySeq),
       Event.upsert msg)
    | none => (cur, Event.upsert msg)

/-- The `forEach(msg, ...)` loop over all fields of a delta message, in
field order. -/
def applyDeltaAux (msg : Msg) : Option CurSub → List (String × StreamContent) →
    Option CurSub × List Event
  | cur, [] => (cur, [])
  | cur, kv :: rest =>
    let r := applyDeltaField msg cur kv
    let r' := applyDeltaAux msg r.1 rest
    (r'.1, r.2 :: r'.2)

/-- The body of the `#processPending` loop for one dequeued message:
a truthy `sync_id` marks catch-up started (`complete` falsy) or
resolves the active subscription and marks catch-up complete
(`complete` truthy); otherwise the message is discarded when
`syncSent !== syncStarted`, else every field is applied as a delta. -/
def processMsg (st : StreamState) (msg : Msg) : StreamState × List Event :=
  match msgSyncId msg with
  | some v =>
    if msgCompleteTruthy msg then
      ({ st with syncComplete := some v }, [Event.loaded (finishLabelsCur st.curSub)])
    else
      ({ st with syncStarted := some v }, [])
  | none =>
    if st.syncSent = st.syncStarted then
      let r := applyDeltaAux msg st.curSub msg
      ({ st with curSub := r.1 }, r.2)
    else (st, [])

/-- Drain a list of pending messages in arrival order. -/
def processPendingAux : StreamState → List Msg → StreamState × List Event
  | st, [] => (st, [])
  | st, m :: rest =>
    let r := processMsg st m
    let r' := processPendingAux r.1 rest
    (r'.1, r.2 ++ r'.2)

/-- `#processPending`: drain the pending-message queue. -/
def processPending (st : StreamState) : StreamState × List Event :=
  processPendingAux { st with pendingMsg := [] } st.pendingMsg

/-- The `reduce` body of `#sendSpec`: walk the merged subscription,
rekeying each entry by `ent.spec.id()`, reusing the active key cache of
that group (or a fresh one), and building the new active subscription
plus the `known` and `subscribe` records of the payload. -/
def sendAux (cur : Option CurSub) : SubscriptionGroup → CurSub →
    List (String × List Int) → List (String × SubscribeEntry) →
    CurSub × List (String × List Int) × List (String × SubscribeEntry)
  | [], nswc, kn, sb => (nswc, kn, sb)
  | ent :: rest, nswc, kn, sb =>
    let k := ent.2.spec.sid
    let kc :=
      match cur with
      | some cs =>
        match List.lookup k cs with
        | some e => e.keyCache
        | none => KeyCache.init
      | none => KeyCache.init
    sendAux cur rest (recSet nswc k ⟨ent.2, kc⟩) (recSet kn k kc.known)
      (recSet sb k ⟨ent.2.spec.wire, kc.maxseq⟩)

/-- `#sendSpec`: merge the new group over the active subscription, take
the next sync identifier, build and transmit the payload, adopt the
merged result as the active subscription and record `syncSent`. -/
def sendSpec (st : StreamState) (newSub : SubscriptionGroup) :
    StreamState × List Event :=
  let sync_id := toString (st.numSyncs + 1)
  let wholeSub :=
    match st.curSub with
    | some cs => recMerge (curSubGroup cs) newSub
    | none => newSub
  let r := sendAux st.curSub wholeSub [] [] []
  ({ st with numSyncs := st.numSyncs + 1, curSub := some r.1,
             syncSent := some (.str sync_id) },
   [Event.send ⟨sync_id, r.2.1, r.2.2⟩])

/-- The queue-drain loop of `#processSubscription`: shift entries off
the queue; skippable entries are resolved as loaded, and the first
non-skippable entry is sent, ending the loop. -/
def drain : StreamState → List SubscriptionGroup → StreamState × List Event
  | st, [] => (st, [])
  | st, g :: rest =>
    if shouldSkip st.curSub g then
      let r := drain { st with subs := rest } rest
      (r.1, Event.loaded (finishLabels g) :: r.2)
    else
      sendSpec { st with subs := rest } g

/-- `#processSubscription`: after a (re)connect (`syncSent` falsy),
resend the active subscription if its catch-up never completed, else pop
one queued group; while a sync is in flight and incomplete, wait;
otherwise drain the queue. -/
def processSubscription (st : StreamState) : StreamState × List Event :=
  if st.curSub.isNone && st.subs.isEmpty then (st, [])
  else if optFalsy st.syncSent then
    match st.curSub, optFalsy st.syncComplete || decide (st.syncStarted ≠ st.syncComplete) with
    | some cs, true => sendSpec st (curSubGroup cs)
    | _, _ =>
      match st.subs with
      | [] => (st, [])
      | g :: rest => sendSpec { st with subs := rest } g
  else if st.syncComplete = st.syncSent then drain st st.subs
  else (st, [])

/-- One advance pass over an open connection: `#processPending` then
`#processSubscription`. -/
def advanceOpen (st : StreamState) : StreamState × List Event :=
  let r := processPending st
  let r' := processSubscription r.1
  (r'.1, r.2 ++ r'.2)

/-- Outcome of the `onclose` handler: either a retry scheduled after a
backoff delay (in seconds), or the fatal `'Websocket cannot reconnect!'`
error. -/
inductive CloseOutcome where
  | scheduleRetry (backoff : Nat)
  | fatal
deriving DecidableEq, Repr

/-- The `ws.onclose` handler: clear `syncSent`, index the backoff table
by the retry counter; out of table means a fatal error, otherwise bump
the counter and schedule a retry after the table entry. -/
def handleClose (st : StreamState) : StreamState × CloseOutcome :=
  let st1 := { st with syncSent := none }
  match backoffs[st.retries]? with
  | none => (st1, CloseOutcome.fatal)
  | some b => ({ st1 with retries := st.retries + 1 }, CloseOutcome.scheduleRetry b)

/-- The `ws.onopen` handler resets the retry counter. -/
def handleOpen (st : StreamState) : StreamState := { st with retries := 0 }

/-- The state after `n` consecutive immediate disconnects starting from
the constructor state (no successful open in between, so the retry
counter is never reset). -/
def afterCloses : Nat → StreamState
  | 0 => initStream
  | n + 1 => (handleClose (afterCloses n)).1

/-- The outcome of the `n`-th consecutive disconnect (1-indexed). -/
def nthCloseOutcome (n : Nat) : CloseOutcome :=
  (handleClose (afterCloses (n - 1))).2

/-- `subscribe(spec, id)`: push a one-group subscription keyed by
`spec.id()` onto the queue. -/
def subscribe (st : StreamState) (spec : StreamSpec) (label : Option String) :
    StreamState :=
  { st with subs := st.subs ++ [[(spec.sid, ⟨spec, label⟩)]] }

/-- Is the event an outbound send? -/
def isSendEv : Event → Bool
  | .send _ => true
  | _ => false

/-- Is the event a loaded-callback resolution? -/
def isLoadedEv : Event → Bool
  | .loaded _ => true
  | _ => false

/-- Is the event an upsert-callback invocation? -/
def isUpsertEv : Event → Bool
  | .upsert _ => true
  | _ => false

/-- Is the event a delete-callback invocation? -/
def isDeleteEv : Event → Bool
  | .delete _ _ => true
  | _ => false

/-- Number of outbound sends in a trace. -/
def countSend (l : List Event) : Nat := (l.filter isSendEv).length

/-- Number of loaded-callback resolutions in a trace. -/
def countLoaded (l : List Event) : Nat := (l.filter isLoadedEv).length

/-- Number of upsert-callback invocations in a trace. -/
def countUpsert (l : List Event) : Nat := (l.filter isUpsertEv).length

/-- Number of delete-callback invocations in a trace. -/
def countDelete (l : List Event) : Nat := (l.filter isDeleteEv).length

/-- A catch-up-start marker: truthy `sync_id`, falsy `complete`. -/
def isStartMarker (m : Msg) : Bool := (msgSyncId m).isSome && !(msgCompleteTruthy m)

/-- A catch-up-complete marker: truthy `sync_id` and truthy `complete`. -/
def isCompleteMarker (m : Msg) : Bool := (msgSyncId m).isSome && msgCompleteTruthy m

/-- Does the list contain a catch-up-start marker for identifier `v`? -/
def hasStartFor (v : StreamContent) (l : List Msg) : Bool :=
  l.any (fun m => isStartMarker m && decide (msgSyncId m = some v))

/-- One step of the server-protocol check: a complete marker must be
preceded by a start marker with the same identifier. -/
def wbStep (seen : List Msg) (m : Msg) : Bool :=
  match msgSyncId m with
  | some v => !(msgCompleteTruthy m) || hasStartFor v seen
  | none => true

/-- Check every message of the queue against the messages before it. -/
def wellBehavedAux : List Msg → List Msg → Bool
  | _, [] => true
  | seen, m :: rest => wbStep seen m && wellBehavedAux (seen ++ [m]) rest

/-- The documented server protocol: each catch-up-complete marker is
preceded by a catch-up-start marker carrying the same identifier. -/
def wellBehaved (msgs : List Msg) : Bool := wellBehavedAux [] msgs

/-- Does the group name end in a character outside the trimmed set
`{'_', 'd', 'e', 'l', 't'}` (so that `trimEnd` recovers it exactly)?
Fails for the empty name. -/
def lastCharOk (g : String) : Bool :=
  match g.toList.getLast? with
  | some c => !("_deleted".toList.contains c)
  | none => false

/-- Example fixture: a spec for the `trials` group. -/
def exSpec : StreamSpec := ⟨"trials", [("q", 1)]⟩

/-- Example fixture: a key cache with two known keys at sequence 5. -/
def exCache : KeyCache := ⟨[1, 2], 5, []⟩

/-- Example fixture: an active subscription over `trials`. -/
def exCur : CurSub := [("trials", ⟨⟨exSpec, some "lbl"⟩, exCache⟩)]

/-- Example fixture: a state whose sync `"1"` was sent, started and
completed. -/
def exDone : StreamState :=
  { initStream with
    curSub := some exCur
    syncSent := some (.str "1")
    syncStarted := some (.str "1")
    syncComplete := some (.str "1") }

/-- Example fixture: a state with a fresh send `"2"` whose catch-up
start has not arrived (`syncSent ≠ syncStarted`). -/
def exMismatch : StreamState := { exDone with syncSent := some (.str "2") }

/-- Example fixture: `exDone` with an identical-spec subscription for
`trials` queued. -/
def exResub : StreamState := { exDone with subs := [[("trials", ⟨exSpec, some "L2"⟩)]] }

/-- Example fixture: a reconnected state (close handler cleared
`syncSent`, catch-up never completed) with a queued subscription. -/
def exRecon : StreamState :=
  { exDone with
    syncSent := none
    syncComplete := none
    subs := [[("x", ⟨⟨"x", []⟩, some "q"⟩)]] }

/-- Example fixture: `exDone` whose `trials` cache is still at
sequence 0. -/
def exDone0 : StreamState :=
  { exDone with curSub := some [("trials", ⟨⟨exSpec, some "lbl"⟩, ⟨[1, 2], 0, []⟩⟩)] }

/-- Example fixture: a live upsert delta for `trials`. -/
def mDelta : Msg := [("trials", .entity 3 10)]

/-- Example fixture: a delta with two upsert fields and one delete
field. -/
def mMixed : Msg := [("trials", .entity 3 10), ("trials_deleted", .keys [4]), ("foo", .str "x")]

/-- Example fixture: a catch-up-start marker for sync `"7"`. -/
def mMarkerStart7 : Msg := [("sync_id", .str "7")]

/-- Example fixture: a catch-up-complete marker for sync `"1"`. -/
def mMarkerDone1 : Msg := [("sync_id", .str "1"), ("complete", .boolv true)]

/-- Example fixture: a catch-up-complete marker for sync `"5"`. -/
def mMarkerDone5 : Msg := [("sync_id", .str "5"), ("complete", .boolv true)]

/-- Example fixture: a catch-up-start marker for sync `"1"`. -/
def mStart1 : Msg := [("sync_id", .str "1")]

/-- Example fixture: the spec's delete-routing example message, which
carries both `trials_deleted` and a `sync_id` field. -/
def mDeltaSync : Msg := [("trials_deleted", .keys [3, 4]), ("sync_id", .str "7")]

/-- Example fixture: a delete field for a group whose name ends in a
character of the trimmed set. -/
def mModelDel : Msg := [("model_deleted", .keys [1])]

/-- Example fixture: a well-behaved marker sequence — catch-up start
for `"1"`, then catch-up complete for `"1"`. -/
def msgsW3 : List Msg := [mStart1, mMarkerDone1]

/-! ### Helper lemmas about the event trace -/

theorem countSend_append (a b : List Event) :
    countSend (a ++ b) = countSend a + countSend b := by
  simp [countSend, List.filter_append]

theorem countLoaded_append (a b : List Event) :
    countLoaded (a ++ b) = countLoaded a + countLoaded b := by
  simp [countLoaded, List.filter_append]

theorem applyDeltaField_ev (msg : Msg) (cur : Option CurSub) (kv : String × StreamContent) :
    (applyDeltaField msg cur kv).2 =
      if strIncludes kv.1 "_deleted" then
        Event.delete (trimEnd kv.1 "_deleted") (decode_keys kv.2)
      else Event.upsert msg := by
  unfold applyDeltaField
  by_cases h : strIncludes kv.1 "_deleted" = true
  · simp [h]
  · cases hm : StreamEntityMap kv.1 <;> simp [h, hm]

theorem applyDeltaAux_events (msg : Msg) (l : List (String × StreamContent)) :
    ∀ cur : Option CurSub,
    (applyDeltaAux msg cur l).2 =
      l.map (fun kv =>
        if strIncludes kv.1 "_deleted" then
          Event.delete (trimEnd kv.1 "_deleted") (decode_keys kv.2)
        else Event.upsert msg) := by
  induction l with
  | nil => intro cur; rfl
  | cons kv rest ih =>
    intro cur
    simp [applyDeltaAux, ih, applyDeltaField_ev]

theorem countLoaded_applyDeltaAux (msg : Msg) (cur : Option CurSub)
    (l : List (String × StreamContent)) :
    countLoaded (applyDeltaAux msg cur l).2 = 0 := by
  rw [applyDeltaAux_events]
  rw [countLoaded, List.length_eq_zero]
  rw [List.filter_eq_nil_iff]
  intro e he
  rcases List.mem_map.mp he with ⟨kv, _, rfl⟩
  by_cases h : strIncludes kv.1 "_deleted" = true <;> simp [h, isLoadedEv]

theorem countSend_applyDeltaAux (msg : Msg) (cur : Option CurSub)
    (l : List (String × StreamContent)) :
    countSend (applyDeltaAux msg cur l).2 = 0 := by
  rw [applyDeltaAux_events]
  rw [countSend, List.length_eq_zero]
  rw [List.filter_eq_nil_iff]
  intro e he
  rcases List.mem_map.mp he with ⟨kv, _, rfl⟩
  by_cases h : strIncludes kv.1 "_deleted" = true <;> simp [h, isSendEv]

theorem countLoaded_processMsg (st : StreamState) (m : Msg) :
    countLoaded (processMsg st m).2 = if isCompleteMarker m then 1 else 0 := by
  unfold processMsg isCompleteMarker
  cases hm : msgSyncId m with
  | some v => cases hc : msgCompleteTruthy m <;> simp [hc, countLoaded, isLoadedEv]
  | none =>
    by_cases h : st.syncSent = st.syncStarted
    · simp [h, countLoaded_applyDeltaAux]
    · simp [h, countLoaded]

theorem countSend_processMsg (st : StreamState) (m : Msg) :
    countSend (processMsg st m).2 = 0 := by
  unfold processMsg
  cases hm : msgSyncId m with
  | some v => cases hc : msgCompleteTruthy m <;> simp [hc, countSend, isSendEv]
  | none =>
    by_cases h : st.syncSent = st.syncStarted
    · simp [h, countSend_applyDeltaAux]
    · simp [h, countSend]

theorem countSend_processPendingAux (l : List Msg) :
    ∀ st : StreamState, countSend (processPendingAux st l).2 = 0 := by
  induction l with
  | nil => intro st; rfl
  | cons m rest ih =>
    intro st
    simp [processPendingAux, countSend_append, countSend_processMsg, ih]

theorem countSend_sendSpec (st : StreamState) (g : SubscriptionGroup) :
    countSend (sendSpec st g).2 = 1 := by
  simp [sendSpec, countSend, isSendEv]

theorem countSend_drain (l : List SubscriptionGroup) :
    ∀ st : StreamState, countSend (drain st l).2 ≤ 1 := by
  induction l with
  | nil => intro st; simp [drain, countSend]
  | cons g rest ih =>
    intro st
    unfold drain
    by_cases h : shouldSkip st.curSub g = true
    · simpa [h, countSend, isSendEv, List.filter_cons] using ih { st with subs := rest }
    · simp [h, countSend_sendSpec]

theorem countSend_processSubscription (st : StreamState) :
    countSend (processSubscription st).2 ≤ 1 := by
  unfold processSubscription
  by_cases h1 : (st.curSub.isNone && st.subs.isEmpty) = true
  · simp [h1, countSend]
  · by_cases h2 : optFalsy st.syncSent = true
    · simp only [h1, h2, if_true, if_false, Bool.false_eq_true]
      split
      · simp [countSend_sendSpec]
      · split
        · simp [countSend]
        · simp [countSend_sendSpec]
    · by_cases h3 : st.syncComplete = st.syncSent
      · simpa [h1, h2, h3, countSend] using countSend_drain st.subs st
      · simp [h1, h2, h3, countSend]

/-! ### C1: stale live updates are discarded outright -/

/-- C1: an inbound message with no (truthy) sync-identifier field,
processed while `syncSent ≠ syncStarted`, is discarded outright: the
state (hence every group's key cache) is unchanged and no callback is
invoked. -/
theorem stale_updates_discarded (st : StreamState) (m : Msg)
    (h1 : msgSyncId m = none) (h2 : st.syncSent ≠ st.syncStarted) :
    processMsg st m = (st, []) := by
  unfold processMsg
  rw [h1]
  simp [h2]

/-- C1 witness: a concrete live update arriving between send `"2"` and
its catch-up start is dropped. -/
theorem stale_updates_discarded_witness :
    msgSyncId mDelta = none ∧ exMismatch.syncSent ≠ exMismatch.syncStarted ∧
    processMsg exMismatch mDelta = (exMismatch, []) :=
  ⟨by decide, by decide, stale_updates_discarded exMismatch mDelta (by decide) (by decide)⟩

/-! ### C9: catch-up markers are never hit by the stale-discard rule -/

/-- C9: a message with a truthy sync-identifier field is never dropped:
even when `syncSent ≠ syncStarted` it records `syncStarted` (falsy
`complete`) or resolves the loaded callback and records `syncComplete`
(truthy `complete`). -/
theorem sync_marker_never_discarded (st : StreamState) (m : Msg) (v : StreamContent)
    (h : msgSyncId m = some v) :
    processMsg st m =
      if msgCompleteTruthy m then
        ({ st with syncComplete := some v }, [Event.loaded (finishLabelsCur st.curSub)])
      else ({ st with syncStarted := some v }, []) := by
  unfold processMsg
  rw [h]

/-- C9 witness: a start marker arriving while `syncSent ≠ syncStarted`
is still recorded. -/
theorem sync_marker_never_discarded_witness :
    exMismatch.syncSent ≠ exMismatch.syncStarted ∧
    processMsg exMismatch mMarkerStart7 =
      ({ exMismatch with syncStarted := some (.str "7") }, []) := by
  refine ⟨by decide, ?_⟩
  rw [sync_marker_never_discarded exMismatch mMarkerStart7 (.str "7") (by decide)]
  decide

/-! ### C7: bounded, table-driven reconnect backoff -/

/-- C7: on `N` consecutive immediate disconnects the `N`-th scheduled
delay is the `N`-th entry of the backoff table, and the disconnect
after the table is exhausted raises the fatal error instead of
scheduling another retry. -/
theorem backoff_bounded (N : Nat) (h1 : 1 ≤ N) (h2 : N ≤ backoffs.length) :
    nthCloseOutcome N = CloseOutcome.scheduleRetry (backoffs.getD (N - 1) 0) ∧
    nthCloseOutcome (backoffs.length + 1) = CloseOutcome.fatal := by
  refine ⟨?_, by decide⟩
  have hl : backoffs.length = 9 := rfl
  rw [hl] at h2
  interval_cases N <;> decide

/-- C7 witness: the fifth consecutive disconnect is scheduled after
8 seconds, and the tenth is fatal. -/
theorem backoff_bounded_witness :
    nthCloseOutcome 5 = CloseOutcome.scheduleRetry (backoffs.getD 4 0) ∧
    nthCloseOutcome (backoffs.length + 1) = CloseOutcome.fatal :=
  backoff_bounded 5 (by decide) (by decide)

/-! ### C2: when the loaded callback fires -/

/-- C2 counterexample: with sync `"2"` in flight, a `complete:true`
marker carrying the different identifier `"1"` still resolves the
loaded callback (and records `syncComplete := "1"`), so the callback
does fire for markers carrying a different sync identifier than the
transmission's. -/
theorem loaded_fires_for_mismatched_marker :
    exMismatch.syncSent = some (.str "2") ∧
    msgSyncId mMarkerDone1 = some (.str "1") ∧
    processMsg exMismatch mMarkerDone1 =
      ({ exMismatch with syncComplete := some (.str "1") }, [Event.loaded ["lbl"]]) := by
  decide

/-- C2 amended: the message dispatcher resolves the loaded callback
exactly once per processed catch-up-complete marker (truthy `sync_id`,
truthy `complete`), regardless of which sync identifier the marker
carries; it never resolves it for any other message. -/
theorem loaded_count_eq_complete_markers (msgs : List Msg) :
    ∀ st : StreamState,
    countLoaded (processPendingAux st msgs).2 = (msgs.filter isCompleteMarker).length := by
  induction msgs with
  | nil => intro st; rfl
  | cons m rest ih =>
    intro st
    simp only [processPendingAux]
    rw [countLoaded_append, countLoaded_processMsg, ih]
    by_cases h : isCompleteMarker m = true
    · simp [List.filter_cons, h]
      omega
    · simp [List.filter_cons, h]

/-! ### C8: at most one transmission per advance pass -/

/-- C8: a single advance pass over an open connection (process pending
messages, then process the subscription queue) issues at most one
outbound subscription transmission. -/
theorem at_most_one_send_per_advance (st : StreamState) :
    countSend (advanceOpen st).2 ≤ 1 := by
  unfold advanceOpen
  simp only [processPending]
  rw [countSend_append, countSend_processPendingAux]
  simpa using countSend_processSubscription _

/-! ### C10: one upsert callback per non-deleted field -/

theorem countUpsert_routed (msg : Msg) (l : List (String × StreamContent)) :
    countUpsert (l.map (fun kv =>
        if strIncludes kv.1 "_deleted" then
          Event.delete (trimEnd kv.1 "_deleted") (decode_keys kv.2)
        else Event.upsert msg)) =
      (l.filter (fun kv => !(strIncludes kv.1 "_deleted"))).length := by
  induction l with
  | nil => rfl
  | cons kv rest ih =>
    by_cases h : strIncludes kv.1 "_deleted" = true <;>
      simp [countUpsert, isUpsertEv, List.filter_cons, h] at ih ⊢ <;> omega

theorem countDelete_routed (msg : Msg) (l : List (String × StreamContent)) :
    countDelete (l.map (fun kv =>
        if strIncludes kv.1 "_deleted" then
          Event.delete (trimEnd kv.1 "_deleted") (decode_keys kv.2)
        else Event.upsert msg)) =
      (l.filter (fun kv => strIncludes kv.1 "_deleted")).length := by
  induction l with
  | nil => rfl
  | cons kv rest ih =>
    by_cases h : strIncludes kv.1 "_deleted" = true <;>
      simp [countDelete, isDeleteEv, List.filter_cons, h] at ih ⊢ <;> omega

/-- C10: processing a non-discarded delta message invokes the upsert
callback once per field whose name lacks the `_deleted` marker — each
time with the entire raw message — and the delete callback once per
field that carries the marker. -/
theorem upsert_once_per_field (st : StreamState) (m : Msg)
    (h1 : msgSyncId m = none) (h2 : st.syncSent = st.syncStarted) :
    (processMsg st m).2 =
      m.map (fun kv =>
        if strIncludes kv.1 "_deleted" then
          Event.delete (trimEnd kv.1 "_deleted") (decode_keys kv.2)
        else Event.upsert m) ∧
    countUpsert (processMsg st m).2 =
      (m.filter (fun kv => !(strIncludes kv.1 "_deleted"))).length ∧
    countDelete (processMsg st m).2 =
      (m.filter (fun kv => strIncludes kv.1 "_deleted")).length := by
  have hev : (processMsg st m).2 =
      m.map (fun kv =>
        if strIncludes kv.1 "_deleted" then
          Event.delete (trimEnd kv.1 "_deleted") (decode_keys kv.2)
        else Event.upsert m) := by
    unfold processMsg
    rw [h1]
    simp [h2, applyDeltaAux_events]
  exact ⟨hev, by rw [hev, countUpsert_routed], by rw [hev, countDelete_routed]⟩

/-- C10 witness: a three-field delta (two entity fields, one
`_deleted` field) under a started sync yields two upsert invocations
and one delete invocation. -/
theorem upsert_once_per_field_witness :
    msgSyncId mMixed = none ∧ exDone.syncSent = exDone.syncStarted ∧
    countUpsert (processMsg exDone mMixed).2 = 2 ∧
    countDelete (processMsg exDone mMixed).2 = 1 := by
  have h := upsert_once_per_field exDone mMixed (by decide) (by decide)
  exact ⟨by decide, by decide, by rw [h.2.1]; decide, by rw [h.2.2]; decide⟩

/-! ### C5: idempotent resubscription -/

/-- C5: with an active subscription whose catch-up completed
(`syncComplete = syncSent`), subscribing again with an `equals`-equal
spec for a group produces no transmission on the next advance pass: the
queued entry is skipped and its non-empty label is resolved via the
loaded callback. -/
theorem idempotent_resubscription (st : StreamState) (cs : CurSub) (g : String)
    (p : StreamSpec) (lbl : String) (e : SubscriptionWithCache) (s : StreamContent)
    (hcur : st.curSub = some cs)
    (hlook : List.lookup g cs = some e)
    (heq : e.spec.equals p = true)
    (hsent : st.syncSent = some s) (htr : truthy s = true)
    (hcomp : st.syncComplete = st.syncSent)
    (hsubs : st.subs = [[(g, ⟨p, some lbl⟩)]])
    (hlbl : lbl ≠ "")
    (hpend : st.pendingMsg = []) :
    advanceOpen st = ({ st with subs := [], pendingMsg := [] }, [Event.loaded [lbl]]) := by
  unfold advanceOpen processPending
  rw [hpend]
  simp only [processPendingAux]
  unfold processSubscription
  simp only [hcur, hsent, hsubs, hcomp, optFalsy, htr]
  simp only [Option.isNone_some, Bool.false_and, Bool.not_true, Bool.false_eq_true,
    if_false, ite_false, if_true, ite_true]
  unfold drain
  simp only [shouldSkip, hcur, List.all_cons, List.all_nil, hlook, heq, Bool.and_true,
    if_true, ite_true]
  unfold drain
  simp [finishLabels, hlbl]

/-- C5 witness: resubscribing to `trials` with the identical spec after
a completed sync sends nothing and resolves the label `"L2"`. -/
theorem idempotent_resubscription_witness :
    advanceOpen exResub = ({ exResub with subs := [], pendingMsg := [] }, [Event.loaded ["L2"]]) :=
  idempotent_resubscription exResub exCur "trials" exSpec "L2"
    ⟨⟨exSpec, some "lbl"⟩, exCache⟩ (.str "1") (by decide) (by decide) (by decide)
    (by decide) (by decide) (by decide) (by decide) (by decide) (by decide)

/-! ### Association-list lemmas for the send path -/

theorem lookup_of_mem_nodup {α : Type} :
    ∀ (l : List (String × α)) (k : String) (v : α),
    (l.map Prod.fst).Nodup → (k, v) ∈ l → List.lookup k l = some v := by
  intro l
  induction l with
  | nil => intro k v _ h; cases h
  | cons kv rest ih =>
    intro k v hnd hm
    obtain ⟨k1, v1⟩ := kv
    rw [List.map_cons, List.nodup_cons] at hnd
    rcases List.mem_cons.mp hm with heq | htail
    · rw [Prod.mk.injEq] at heq
      obtain ⟨rfl, rfl⟩ := heq
      simp [List.lookup]
    · have hk : (k == k1) = false := by
        apply beq_eq_false_iff_ne.mpr
        intro h
        subst h
        exact hnd.1 (List.mem_map.mpr ⟨(k, v), htail, rfl⟩)
      simp only [List.lookup, hk]
      exact ih k v hnd.2 htail

theorem lookup_isSome_of_mem {α : Type} :
    ∀ (l : List (String × α)) (kv : String × α), kv ∈ l → (List.lookup kv.1 l).isSome = true := by
  intro l
  induction l with
  | nil => intro kv h; cases h
  | cons hd rest ih =>
    intro kv hm
    obtain ⟨k1, v1⟩ := hd
    rcases List.mem_cons.mp hm with rfl | htail
    · simp [List.lookup]
    · cases hbe : (kv.1 == k1)
      · simp only [List.lookup, hbe]
        exact ih kv htail
      · simp [List.lookup, hbe]

theorem recSet_fresh {α : Type} (l : List (String × α)) (k : String) (v : α)
    (h : l.any (fun x => x.1 == k) = false) : recSet l k v = l ++ [(k, v)] := by
  unfold recSet
  rw [h]
  simp

theorem map_fst_curSubGroup (cs : CurSub) :
    (curSubGroup cs).map Prod.fst = cs.map Prod.fst := by
  simp [curSubGroup, List.map_map]

theorem recMerge_self (l : SubscriptionGroup) (hnd : (l.map Prod.fst).Nodup) :
    recMerge l l = l := by
  unfold recMerge
  have h1 : (l.map (fun kv =>
      match List.lookup kv.1 l with
      | some v => (kv.1, v)
      | none => kv)) = l := by
    conv_rhs => rw [← List.map_id l]
    apply List.map_congr_left
    intro kv hm
    rw [lookup_of_mem_nodup l kv.1 kv.2 hnd hm]
    rfl
  have h2 : l.filter (fun kv => (List.lookup kv.1 l).isNone) = [] := by
    rw [List.filter_eq_nil_iff]
    intro kv hm
    have hs := lookup_isSome_of_mem l kv hm
    intro hcontra
    rw [Option.isNone_iff_eq_none] at hcontra
    rw [hcontra] at hs
    simp at hs
  rw [h1, h2, List.append_nil]

theorem sendAux_build (cs : CurSub) :
    ∀ (l : CurSub) (nswc : CurSub) (kn : List (String × List Int))
      (sb : List (String × SubscribeEntry)),
    (∀ kv ∈ l, List.lookup kv.1 cs = some kv.2) →
    (∀ kv ∈ l, kv.2.spec.sid = kv.1) →
    (l.map Prod.fst).Nodup →
    (∀ kv ∈ l, nswc.any (fun x => x.1 == kv.1) = false) →
    (∀ kv ∈ l, kn.any (fun x => x.1 == kv.1) = false) →
    (∀ kv ∈ l, sb.any (fun x => x.1 == kv.1) = false) →
    sendAux (some cs) (curSubGroup l) nswc kn sb =
      (nswc ++ l,
       kn ++ l.map (fun kv => (kv.1, kv.2.keyCache.known)),
       sb ++ l.map (fun kv => (kv.1, ⟨kv.2.spec.wire, kv.2.keyCache.maxseq⟩))) := by
  intro l
  induction l with
  | nil =>
    intro nswc kn sb _ _ _ _ _ _
    simp [curSubGroup, sendAux]
  | cons kv rest ih =>
    intro nswc kn sb hl hwk hnd hd1 hd2 hd3
    obtain ⟨k, e⟩ := kv
    have hsid : e.spec.sid = k := hwk (k, e) (List.mem_cons_self _ _)
    have hlk : List.lookup k cs = some e := hl (k, e) (List.mem_cons_self _ _)
    rw [List.map_cons, List.nodup_cons] at hnd
    have hkrest : ∀ kv ∈ rest, (k == kv.1) = false := by
      intro kv hm
      apply beq_eq_false_iff_ne.mpr
      intro h
      exact hnd.1 (h ▸ List.mem_map.mpr ⟨kv, hm, rfl⟩)
    simp only [curSubGroup, List.map_cons]
    rw [sendAux]
    simp only [hsid, hlk]
    rw [recSet_fresh nswc k _ (hd1 (k, e) (List.mem_cons_self _ _))]
    rw [recSet_fresh kn k _ (hd2 (k, e) (List.mem_cons_self _ _))]
    rw [recSet_fresh sb k _ (hd3 (k, e) (List.mem_cons_self _ _))]
    have hrest := ih (nswc ++ [(k, e)]) (kn ++ [(k, e.keyCache.known)])
      (sb ++ [(k, ⟨e.spec.wire, e.keyCache.maxseq⟩)])
      (fun kv hm => hl kv (List.mem_cons_of_mem _ hm))
      (fun kv hm => hwk kv (List.mem_cons_of_mem _ hm))
      hnd.2
      (fun kv hm => by
        rw [List.any_append, hd1 kv (List.mem_cons_of_mem _ hm)]
        simp [hkrest kv hm])
      (fun kv hm => by
        rw [List.any_append, hd2 kv (List.mem_cons_of_mem _ hm)]
        simp [hkrest kv hm])
      (fun kv hm => by
        rw [List.any_append, hd3 kv (List.mem_cons_of_mem _ hm)]
        simp [hkrest kv hm])
    have heta : ({ toSubscription := e.toSubscription, keyCache := e.keyCache } :
        SubscriptionWithCache) = e := rfl
    rw [heta]
    simp only [curSubGroup] at hrest
    rw [hrest]
    simp [List.append_assoc]

/-! ### C4: reconnect replays the unfinished active subscription -/

/-- C4: after a close cleared `syncSent`, if the active subscription's
catch-up never completed (falsy `syncComplete`, or
`syncStarted ≠ syncComplete`), the next advance over the subscription
half retransmits exactly the active subscription — same specs, same
merged key caches — leaving the pending subscription queue untouched.
The key-wellformedness and no-duplicate hypotheses state that the
active record is keyed by each spec's own group identity, which is how
`#sendSpec` always builds it. -/
theorem processSubscription_resend_branch (st : StreamState) (cs : CurSub)
    (hsent : st.syncSent = none)
    (hcur : st.curSub = some cs)
    (hcond : (optFalsy st.syncComplete || decide (st.syncStarted ≠ st.syncComplete)) = true) :
    processSubscription st = sendSpec st (curSubGroup cs) := by
  unfold processSubscription
  rw [hcur, hsent]
  simp only [Option.isNone_some, Bool.false_and, Bool.false_eq_true, if_false, ite_false,
    show optFalsy none = true from rfl, if_true, ite_true, hcond]

theorem sendSpec_resend (st : StreamState) (cs : CurSub)
    (hcur : st.curSub = some cs)
    (hwk : ∀ kv ∈ cs, kv.2.spec.sid = kv.1)
    (hnd : (cs.map Prod.fst).Nodup) :
    sendSpec st (curSubGroup cs) =
      ({ st with
          numSyncs := st.numSyncs + 1
          curSub := some cs
          syncSent := some (.str (toString (st.numSyncs + 1))) },
       [Event.send ⟨toString (st.numSyncs + 1),
          cs.map (fun kv => (kv.1, kv.2.keyCache.known)),
          cs.map (fun kv => (kv.1, ⟨kv.2.spec.wire, kv.2.keyCache.maxseq⟩))⟩]) := by
  have hbuild := sendAux_build cs cs [] [] []
    (fun kv hm => lookup_of_mem_nodup cs kv.1 kv.2 hnd hm)
    hwk hnd (fun _ _ => rfl) (fun _ _ => rfl) (fun _ _ => rfl)
  have hmerge : recMerge (curSubGroup cs) (curSubGroup cs) = curSubGroup cs :=
    recMerge_self (curSubGroup cs) (by rw [map_fst_curSubGroup]; exact hnd)
  unfold sendSpec
  rw [hcur]
  simp only [hmerge, hbuild, List.nil_append]

/-- C4: after a close cleared `syncSent`, if the active subscription's
catch-up never completed (falsy `syncComplete`, or
`syncStarted ≠ syncComplete`), the next advance over the subscription
half retransmits exactly the active subscription — same specs, same
merged key caches — leaving the pending subscription queue untouched.
The key-wellformedness and no-duplicate hypotheses state that the
active record is keyed by each spec's own group identity, which is how
`#sendSpec` always builds it. -/
theorem reconnect_resends_active (st : StreamState) (cs : CurSub)
    (hsent : st.syncSent = none)
    (hcur : st.curSub = some cs)
    (hunf : optFalsy st.syncComplete = true ∨ st.syncStarted ≠ st.syncComplete)
    (hwk : ∀ kv ∈ cs, kv.2.spec.sid = kv.1)
    (hnd : (cs.map Prod.fst).Nodup) :
    processSubscription st =
      ({ st with
          numSyncs := st.numSyncs + 1
          curSub := some cs
          syncSent := some (.str (toString (st.numSyncs + 1))) },
       [Event.send ⟨toString (st.numSyncs + 1),
          cs.map (fun kv => (kv.1, kv.2.keyCache.known)),
          cs.map (fun kv => (kv.1, ⟨kv.2.spec.wire, kv.2.keyCache.maxseq⟩))⟩]) := by
  have hcond : (optFalsy st.syncComplete || decide (st.syncStarted ≠ st.syncComplete)) = true := by
    rcases hunf with h | h
    · simp [h]
    · simp [h]
  rw [processSubscription_resend_branch st cs hsent hcur hcond]
  exact sendSpec_resend st cs hcur hwk hnd

/-- C4 witness: a reconnected state with an unfinished `trials`
subscription and one queued group resends exactly the active `trials`
subscription, with the queue untouched. -/
theorem reconnect_resends_active_witness :
    processSubscription exRecon =
      ({ exRecon with
          numSyncs := exRecon.numSyncs + 1
          curSub := some exCur
          syncSent := some (.str (toString (exRecon.numSyncs + 1))) },
       [Event.send ⟨toString (exRecon.numSyncs + 1),
          exCur.map (fun kv => (kv.1, kv.2.keyCache.known)),
          exCur.map (fun kv => (kv.1, ⟨kv.2.spec.wire, kv.2.keyCache.maxseq⟩))⟩]) :=
  reconnect_resends_active exRecon exCur (by decide) (by decide) (Or.inl (by decide))
    (by decide) (by decide)

/-! ### C6: delete/upsert routing -/

theorem startsWithList_self : ∀ l : List Char, startsWithList l l = true := by
  intro l
  induction l with
  | nil => rfl
  | cons c rest ih => simp [startsWithList, ih]

theorem hasInfixList_append_self (pat : List Char) :
    ∀ l : List Char, hasInfixList pat (l ++ pat) = true := by
  intro l
  induction l with
  | nil =>
    cases pat with
    | nil => rfl
    | cons c rest => simp [hasInfixList, startsWithList_self]
  | cons c rest ih =>
    simp [hasInfixList, ih]

theorem strIncludes_append_marker (g : String) :
    strIncludes (g ++ "_deleted") "_deleted" = true := by
  unfold strIncludes
  have h : (g ++ "_deleted").toList = g.toList ++ "_deleted".toList := by
    simp [String.toList, String.data_append]
  rw [h]
  exact hasInfixList_append_self _ _

theorem dropWhile_append_of_all {p : Char → Bool} :
    ∀ (l1 l2 : List Char), (∀ c ∈ l1, p c = true) →
    List.dropWhile p (l1 ++ l2) = List.dropWhile p l2 := by
  intro l1
  induction l1 with
  | nil => intro l2 _; rfl
  | cons c rest ih =>
    intro l2 h
    rw [List.cons_append, List.dropWhile_cons]
    rw [h c (List.mem_cons_self _ _)]
    simp only [if_true, ite_true]
    exact ih l2 (fun c hc => h c (List.mem_cons_of_mem _ hc))

theorem trimEnd_append_marker (g : String) (hg : lastCharOk g = true) :
    trimEnd (g ++ "_deleted") "_deleted" = g := by
  unfold lastCharOk at hg
  rcases hc : g.toList.getLast? with _ | c
  · rw [hc] at hg
    simp at hg
  · rw [hc] at hg
    have hg' : (!("_deleted".toList.contains c)) = true := hg
    have hpc : ("_deleted".toList.contains c) = false := by
      cases h : ("_deleted".toList.contains c)
      · rfl
      · rw [h] at hg'
        simp at hg'
    unfold trimEnd
    have h1 : (g ++ "_deleted").toList = g.toList ++ "_deleted".toList := by
      simp [String.toList, String.data_append]
    rw [h1, List.reverse_append]
    have h2 : List.dropWhile (fun ch => "_deleted".toList.contains ch)
        ("_deleted".toList.reverse ++ g.toList.reverse) =
        List.dropWhile (fun ch => "_deleted".toList.contains ch) g.toList.reverse := by
      apply dropWhile_append_of_all
      intro ch hch
      rw [List.mem_reverse] at hch
      exact List.elem_eq_true_of_mem hch
    rw [h2]
    have hhead : g.toList.reverse.head? = some c := by
      rw [List.head?_reverse]
      exact hc
    have h3 : g.toList.reverse = c :: g.toList.reverse.tail :=
      (List.cons_head?_tail hhead).symm
    rw [h3, List.dropWhile_cons, hpc]
    simp only [Bool.false_eq_true, if_false, ite_false]
    rw [← h3, List.reverse_reverse]
    rfl

theorem msgSyncId_delete_field (g : String) (v : StreamContent) :
    msgSyncId [(g ++ "_deleted", v)] = none := by
  have hne : ("sync_id" == g ++ "_deleted") = false := by
    apply beq_eq_false_iff_ne.mpr
    intro h
    have hlen := congrArg String.length h
    rw [String.length_append] at hlen
    have h7 : "sync_id".length = 7 := rfl
    have h8 : "_deleted".length = 8 := rfl
    rw [h7, h8] at hlen
    omega
  unfold msgSyncId
  simp [List.lookup, hne]

/-- C6 counterexample: the claim's own delete example
`{"trials_deleted": <[3,4]>, "sync_id": "7"}`, processed under an
active completed sync, invokes no callback and mutates no key cache —
its truthy `sync_id` makes the dispatcher consume it as a
catch-up-start marker instead; moreover a `model_deleted` field routes
the delete callback to group `"mo"`, not `"model"`, because lodash
`trimEnd` strips a character set. -/
theorem delta_with_sync_id_not_routed :
    processMsg exDone mDeltaSync = ({ exDone with syncStarted := some (.str "7") }, []) ∧
    (processMsg exDone mModelDel).2 = [Event.delete "mo" [1]] := by
  decide

/-- C6 amended: for a group name `g` that does not end in one of the
characters `{'_','d','e','l','t'}`, a non-discarded delta message
without a sync-identifier field whose field is named `g_deleted`
applies the decoded delete to `g`'s key cache and invokes the delete
callback with exactly `g` and the decoded keys; and the upsert example
`{"trials": {id 3, seq 10}}` under an active completed sync invokes the
upsert callback with the whole message and advances the `trials` cache
to sequence 10. -/
theorem delta_delete_routing (st : StreamState) (g : String) (ks : List Int)
    (hg : lastCharOk g = true)
    (hsync : st.syncSent = st.syncStarted) :
    processMsg st [(g ++ "_deleted", .keys ks)] =
      ({ st with curSub := updateCache st.curSub g (fun c => c.delete_msg ks) },
       [Event.delete g ks]) ∧
    processMsg exDone0 mDelta =
      ({ exDone0 with curSub := some [("trials", ⟨⟨exSpec, some "lbl"⟩, ⟨[1, 2, 3], 10, []⟩⟩)] },
       [Event.upsert mDelta]) := by
  constructor
  · unfold processMsg
    rw [msgSyncId_delete_field]
    simp only [hsync, if_true, ite_true, if_pos rfl]
    simp [applyDeltaAux, applyDeltaField, strIncludes_append_marker,
      trimEnd_append_marker g hg, decode_keys]
  · decide

/-- C6 witness: the delete routing at `g = "trials"`, `keys = [3,4]`
under an active completed sync. -/
theorem delta_delete_routing_witness :
    lastCharOk "trials" = true ∧
    processMsg exDone [("trials" ++ "_deleted", .keys [3, 4])] =
      ({ exDone with curSub := updateCache exDone.curSub "trials" (fun c => c.delete_msg [3, 4]) },
       [Event.delete "trials" [3, 4]]) :=
  ⟨by decide, (delta_delete_routing exDone "trials" [3, 4] (by decide) (by decide)).1⟩

/-! ### C3: syncComplete versus syncStarted ordering -/

theorem processMsg_syncComplete (st : StreamState) (m : Msg) :
    (processMsg st m).1.syncComplete =
      if isCompleteMarker m then msgSyncId m else st.syncComplete := by
  unfold processMsg isCompleteMarker
  cases hm : msgSyncId m with
  | some v => cases hc : msgCompleteTruthy m <;> simp [hc]
  | none => by_cases h : st.syncSent = st.syncStarted <;> simp [h]

theorem processPendingAux_complete_source :
    ∀ (msgs : List Msg) (st : StreamState) (v : StreamContent),
    (processPendingAux st msgs).1.syncComplete = some v →
    st.syncComplete = some v ∨ ∃ m ∈ msgs, isCompleteMarker m = true ∧ msgSyncId m = some v := by
  intro msgs
  induction msgs with
  | nil => intro st v h; exact Or.inl h
  | cons m rest ih =>
    intro st v h
    simp only [processPendingAux] at h
    rcases ih (processMsg st m).1 v h with h1 | h2
    · rw [processMsg_syncComplete] at h1
      by_cases hc : isCompleteMarker m = true
      · rw [if_pos hc] at h1
        exact Or.inr ⟨m, List.mem_cons_self _ _, hc, h1⟩
      · rw [if_neg hc] at h1
        exact Or.inl h1
    · rcases h2 with ⟨m', hm', hc', hv'⟩
      exact Or.inr ⟨m', List.mem_cons_of_mem _ hm', hc', hv'⟩

theorem wellBehaved_start_before :
    ∀ (l₁ seen : List Msg) (cm : Msg) (l₂ : List Msg) (v : StreamContent),
    wellBehavedAux seen (l₁ ++ cm :: l₂) = true →
    isCompleteMarker cm = true → msgSyncId cm = some v →
    hasStartFor v (seen ++ l₁) = true := by
  intro l₁
  induction l₁ with
  | nil =>
    intro seen cm l₂ v hwb hc hv
    simp only [List.nil_append, wellBehavedAux, Bool.and_eq_true] at hwb
    have hstep := hwb.1
    unfold wbStep at hstep
    rw [hv] at hstep
    have hct : msgCompleteTruthy cm = true := by
      unfold isCompleteMarker at hc
      rw [Bool.and_eq_true] at hc
      exact hc.2
    rw [hct] at hstep
    simpa using hstep
  | cons a l ih =>
    intro seen cm l₂ v hwb hc hv
    simp only [List.cons_append, wellBehavedAux, Bool.and_eq_true] at hwb
    have h := ih (seen ++ [a]) cm l₂ v hwb.2 hc hv
    simpa [List.append_assoc] using h

theorem hasStartFor_decomp (v : StreamContent) (l : List Msg) (h : hasStartFor v l = true) :
    ∃ l₁ sm l₂, l = l₁ ++ sm :: l₂ ∧ isStartMarker sm = true ∧ msgSyncId sm = some v := by
  unfold hasStartFor at h
  rcases List.any_eq_true.mp h with ⟨sm, hmem, hp⟩
  rcases List.append_of_mem hmem with ⟨l₁, l₂, rfl⟩
  rw [Bool.and_eq_true] at hp
  exact ⟨l₁, sm, l₂, rfl, hp.1, of_decide_eq_true hp.2⟩

theorem processPendingAux_append (a b : List Msg) :
    ∀ st : StreamState,
    (processPendingAux st (a ++ b)).1 = (processPendingAux (processPendingAux st a).1 b).1 := by
  induction a with
  | nil => intro st; rfl
  | cons m rest ih =>
    intro st
    simp only [List.cons_append, processPendingAux]
    exact ih _

theorem processMsg_start_sets (st : StreamState) (sm : Msg) (v : StreamContent)
    (hs : isStartMarker sm = true) (hv : msgSyncId sm = some v) :
    (processMsg st sm).1.syncStarted = some v := by
  unfold processMsg
  rw [hv]
  unfold isStartMarker at hs
  rw [Bool.and_eq_true] at hs
  have hfalse : msgCompleteTruthy sm = false := by
    cases h : msgCompleteTruthy sm
    · rfl
    · rw [h] at hs
      simp at hs
  simp [hfalse]

/-- C3 counterexample: from the initial state, processing the single
message `{"sync_id": "5", "complete": true}` is a reachable run that
leaves `syncComplete = "5"` although `"5"` was never recorded in
`syncStarted` at any point of the run (neither before nor after the
message). -/
theorem syncComplete_without_start :
    (processPendingAux initStream [mMarkerDone5]).1.syncComplete = some (.str "5") ∧
    (processPendingAux initStream []).1.syncStarted ≠ some (.str "5") ∧
    (processPendingAux initStream [mMarkerDone5]).1.syncStarted ≠ some (.str "5") := by
  decide

/-- C3 amended: for inbound sequences respecting the documented server
protocol (every catch-up-complete marker is preceded by a
catch-up-start marker with the same identifier), whenever the run ends
with `syncComplete = v`, the sequence decomposes around a start marker
for `v` — at which point `syncStarted = v` was recorded — followed
later by a complete marker for `v`: the `syncStarted` recording
precedes the `syncComplete` recording for the same identifier. -/
theorem syncComplete_requires_prior_start (msgs : List Msg) (v : StreamContent)
    (hwb : wellBehaved msgs = true)
    (hc : (processPendingAux initStream msgs).1.syncComplete = some v) :
    ∃ l₁ sm l₂, msgs = l₁ ++ sm :: l₂ ∧ isStartMarker sm = true ∧ msgSyncId sm = some v ∧
      (processPendingAux initStream (l₁ ++ [sm])).1.syncStarted = some v ∧
      ∃ l₃ cm l₄, l₂ = l₃ ++ cm :: l₄ ∧ isCompleteMarker cm = true ∧ msgSyncId cm = some v := by
  rcases processPendingAux_complete_source msgs initStream v hc with h0 | ⟨cm, hmem, hcm, hid⟩
  · exact absurd h0 (by simp [initStream])
  · rcases List.append_of_mem hmem with ⟨p, q, rfl⟩
    have hwb' : wellBehavedAux [] (p ++ cm :: q) = true := hwb
    have hstart := wellBehaved_start_before p [] cm q v hwb' hcm hid
    rw [List.nil_append] at hstart
    rcases hasStartFor_decomp v p hstart with ⟨a, sm, b, rfl, hsm, hsv⟩
    refine ⟨a, sm, b ++ cm :: q, by simp, hsm, hsv, ?_, b, cm, q, rfl, hcm, hid⟩
    rw [processPendingAux_append]
    simp only [processPendingAux]
    exact processMsg_start_sets _ sm v hsm hsv

/-- C3 witness: the well-behaved run start(1); complete(1) decomposes
as required. -/
theorem syncComplete_requires_prior_start_witness :
    wellBehaved msgsW3 = true ∧
    (∃ l₁ sm l₂, msgsW3 = l₁ ++ sm :: l₂ ∧ isStartMarker sm = true ∧
      msgSyncId sm = some (.str "1") ∧
      (processPendingAux initStream (l₁ ++ [sm])).1.syncStarted = some (.str "1") ∧
      ∃ l₃ cm l₄, l₂ = l₃ ++ cm :: l₄ ∧ isCompleteMarker cm = true ∧
        msgSyncId cm = some (.str "1")) :=
  ⟨by decide, syncComplete_requires_prior_start msgsW3 (.str "1") (by decide) (by decide)⟩

end DetStream
